import Mathlib

/-!
Verification development for the fdt-rs flattened-device-tree parser.

The Rust sources are embedded shallowly:

* a blob is a `List Nat` of bytes (entries are byte values, `< 256`);
* machine pointers into the blob are plain offsets (`Nat`), together with a
  `base` address for the buffer where pointer alignment matters
  (`<*const u8>::align_offset` is modelled on `base + offset`);
* fallible Rust code returns `Except DevTreeError` / `Option`; code that can
  panic (an `unwrap` of an `Err`, a dereference of a null raw pointer)
  returns a `POut` value with a dedicated `panic` outcome;
* per the specification's scoping, `str` values are handled as raw byte
  slices (the UTF-8/ASCII decode toggle is out of the specified core), so
  string comparisons are byte-list comparisons.
-/

set_option autoImplicit false

deriving instance DecidableEq for Except

namespace FdtRs

/-! ## Byte reader (src/priv_util.rs) -/

/-- Value of the big-endian u32 formed by the four bytes at `off`
(the in-bounds read performed by `read_be_u32` / `unsafe_read_be_u32`,
both of which check `off + 4 ≤ len` first). -/
def beU32val (buf : List Nat) (off : Nat) : Nat :=
  buf.getD off 0 * 16777216 + buf.getD (off + 1) 0 * 65536 +
    buf.getD (off + 2) 0 * 256 + buf.getD (off + 3) 0

/-- Value of the big-endian u64 formed by the eight bytes at `off`. -/
def beU64val (buf : List Nat) (off : Nat) : Nat :=
  beU32val buf off * 4294967296 + beU32val buf (off + 4)

/-- `SliceRead::read_be_u32` (and the `unsafe_read_be_u32` twin): bounds
check, then the big-endian read.  Both error variants of `SliceReadError`
convert to `DevTreeError::ParseError`, so a single `Option` captures them. -/
def readBeU32 (buf : List Nat) (off : Nat) : Option Nat :=
  if off + 4 > buf.length then none else some (beU32val buf off)

/-- `SliceRead::read_be_u64`: bounds check, then the big-endian read. -/
def readBeU64 (buf : List Nat) (off : Nat) : Option Nat :=
  if off + 8 > buf.length then none else some (beU64val buf off)

/-- Scan `[pos, stop)` (with `stop ≤ buf.length` at every call site) for the
first zero byte; the loop of `read_bstring0` / `nread_bstring0`.
`count` is the remaining width `stop - pos`, making the recursion
structural. -/
def findZeroGo (buf : List Nat) : Nat → Nat → Option Nat
  | 0, _ => none
  | count + 1, pos =>
    if buf.getD pos 0 = 0 then some pos else findZeroGo buf count (pos + 1)

/-- First index `i` with `pos ≤ i < stop` and `buf[i] = 0`. -/
def findZeroInRange (buf : List Nat) (pos stop : Nat) : Option Nat :=
  findZeroGo buf (stop - pos) pos

/-- `SliceRead::read_bstring0`: the byte slice `[pos, nul)` where `nul` is
the first zero byte at or after `pos`, or an error (here `none`) if the
buffer ends first. -/
def read_bstring0 (buf : List Nat) (pos : Nat) : Option (List Nat) :=
  match findZeroInRange buf pos buf.length with
  | some i => some ((buf.drop pos).take (i - pos))
  | none => none

/-- `SliceRead::nread_bstring0`: as `read_bstring0` but the scan stops at
`min (len + pos) buf.length`. -/
def nread_bstring0 (buf : List Nat) (pos len : Nat) : Option (List Nat) :=
  match findZeroInRange buf pos (min (len + pos) buf.length) with
  | some i => some ((buf.drop pos).take (i - pos))
  | none => none

/-! ## Constants and wire-level types (src/spec.rs) -/

/-- `FDT_MAGIC = 0xd00d_feed`. -/
def FDT_MAGIC : Nat := 3490578157

/-- `MAX_NODE_NAME_LEN = 31`. -/
def MAX_NODE_NAME_LEN : Nat := 31

/-- `DevTreeError` (src/error.rs).  `InvalidParameter` drops its
`&'static str` payload. -/
inductive DevTreeError where
  | invalidParameter
  | invalidMagicNumber
  | invalidOffset
  | parseError
  | strError
  | notEnoughMemory
deriving DecidableEq, Repr

/-- `ParsedTok` (src/base/parse.rs), with the `ParsedBeginNode` /
`ParsedProp` payloads inlined.  A property's value buffer is carried as the
byte slice the tokenizer cut out of the blob. -/
inductive ParsedTok where
  | beginNode (name : List Nat)
  | endNode
  | prop (propBuf : List Nat) (nameOffset : Nat)
  | nop
deriving DecidableEq, Repr

/-- Outcome of a call that can also panic (an `unwrap` on `Err`, or a null /
wild pointer dereference). -/
inductive POut (α : Type) where
  | ok (val : α)
  | err (e : DevTreeError)
  | panic
deriving DecidableEq, Repr

/-- `(4 - addr % 4) % 4`: what `<*const u8>::align_offset(4)` returns for a
pointer whose address is `addr`. -/
def alignOffset4 (addr : Nat) : Nat := (4 - addr % 4) % 4

/-! ## Tokenizer (src/base/parse.rs, `next_devtree_token`) -/

/-- `next_devtree_token`.  `base` is the address of `buf` (used only for the
`align_offset` computations).  On `Except.ok` the returned `Nat` is the
updated cursor `off`; on a parse failure every `SliceReadError` and invalid
token converts to `DevTreeError::ParseError` exactly as in the source. -/
def next_devtree_token (base : Nat) (buf : List Nat) (off : Nat) :
    Except DevTreeError (Option ParsedTok × Nat) :=
  match readBeU32 buf off with
  | none => .error .parseError
  | some tokVal =>
    let off1 := off + 4
    if tokVal = 1 then
      -- FdtTok::BeginNode
      match nread_bstring0 buf off1 (MAX_NODE_NAME_LEN - 1) with
      | none => .error .parseError
      | some name =>
        let off2 := off1 + name.length + 1
        let off3 := off2 + alignOffset4 (base + off2)
        .ok (some (.beginNode name), off3)
    else if tokVal = 3 then
      -- FdtTok::Prop: an 8-byte header {len, nameoff}, then the value bytes
      if off1 + 8 > buf.length then .error .parseError
      else
        let propLen := beU32val buf off1
        let off2 := off1 + 8
        if off2 + propLen > buf.length then .error .parseError
        else
          let propBuf := (buf.drop off2).take propLen
          let off3 := off2 + propBuf.length
          let off4 := off3 + alignOffset4 (base + off3)
          let nameOffset := beU32val buf (off1 + 4)
          if nameOffset > buf.length then .error .parseError
          else .ok (some (.prop propBuf nameOffset), off4)
    else if tokVal = 2 then .ok (some .endNode, off1)
    else if tokVal = 4 then .ok (some .nop, off1)
    else if tokVal = 9 then .ok (none, off1)
    else .error .parseError

/-- Size of a token's encoding after the 4-byte token code: the payload
padded to the next 32-bit boundary. -/
def tokPaddedSize : ParsedTok → Nat
  | .beginNode name => name.length + 1 + (4 - (name.length + 1) % 4) % 4
  | .prop propBuf _ => 8 + propBuf.length + (4 - propBuf.length % 4) % 4
  | .endNode => 0
  | .nop => 0

/-! ## Header decoder (src/base/tree.rs) -/

/-- `DevTree`: the buffer together with its address (the source stores only
the slice; the address is the slice's pointer, kept explicitly here). -/
structure DevTree where
  base : Nat
  buf : List Nat
deriving DecidableEq, Repr

/-- `DevTree::verify_magic`. -/
def verify_magic (buf : List Nat) : Except DevTreeError Unit :=
  match readBeU32 buf 0 with
  | none => .error .parseError
  | some m => if m ≠ FDT_MAGIC then .error .invalidMagicNumber else .ok ()

/-- `DevTree::read_totalsize`: alignment of the buffer address, magic, then
the `totalsize` field at byte offset 4. -/
def read_totalsize (base : Nat) (buf : List Nat) : Except DevTreeError Nat :=
  if base % 4 ≠ 0 then .error .invalidParameter
  else
    match verify_magic buf with
    | .error e => .error e
    | .ok _ =>
      match readBeU32 buf 4 with
      | none => .error .parseError
      | some ts => .ok ts

/-- `DevTree::new`, including `from_safe_slice`.  The two offset accessors
called by `from_safe_slice` internally `unwrap` a bounds-checked read; a
failing read is a panic, not an error return. -/
def devtree_new (base : Nat) (buf : List Nat) : POut DevTree :=
  match read_totalsize base buf with
  | .error e => .err e
  | .ok ts =>
    if ts < buf.length then .err .parseError
    else
      -- from_safe_slice: verify_offset_aligned(off_mem_rsvmap), then
      -- verify_offset_aligned(off_dt_struct)
      match readBeU32 buf 16 with
      | none => .panic
      | some rsv =>
        if rsv % 4 ≠ 0 then .err .parseError
        else
          match readBeU32 buf 8 with
          | none => .panic
          | some dts => if dts % 4 ≠ 0 then .err .parseError else .ok ⟨base, buf⟩

namespace DevTree

/-- `DevTree::magic` (header field at byte 0); `none` models the panicking
internal `unwrap`. -/
def magic (d : DevTree) : Option Nat := readBeU32 d.buf 0

/-- `DevTree::totalsize` (header field at byte 4). -/
def totalsize (d : DevTree) : Option Nat := readBeU32 d.buf 4

/-- `DevTree::off_dt_struct` (header field at byte 8). -/
def off_dt_struct (d : DevTree) : Option Nat := readBeU32 d.buf 8

/-- `DevTree::off_dt_strings` (header field at byte 12). -/
def off_dt_strings (d : DevTree) : Option Nat := readBeU32 d.buf 12

/-- `DevTree::off_mem_rsvmap` (header field at byte 16). -/
def off_mem_rsvmap (d : DevTree) : Option Nat := readBeU32 d.buf 16

/-- `DevTree::version` (header field at byte 20). -/
def version (d : DevTree) : Option Nat := readBeU32 d.buf 20

/-- `DevTree::last_comp_version` (header field at byte 24). -/
def last_comp_version (d : DevTree) : Option Nat := readBeU32 d.buf 24

/-- `DevTree::boot_cpuid_phys` (header field at byte 28). -/
def boot_cpuid_phys (d : DevTree) : Option Nat := readBeU32 d.buf 28

/-- `DevTree::size_dt_strings` (header field at byte 32). -/
def size_dt_strings (d : DevTree) : Option Nat := readBeU32 d.buf 32

/-- `DevTree::size_dt_struct` (header field at byte 36). -/
def size_dt_struct (d : DevTree) : Option Nat := readBeU32 d.buf 36

end DevTree

/-! ## Reserve-map iterator (src/base/iters.rs, `DevTreeReserveEntryIter`) -/

/-- Outcome of one `DevTreeReserveEntryIter::next` call at cursor `offset`. -/
inductive RsvOut where
  | yield (addr size nextOff : Nat)
  | stop
  | panic
deriving DecidableEq, Repr

/-- `DevTreeReserveEntryIter::next`: stop once `offset > totalsize`;
otherwise `read()` (a `ptr_at::<fdt_reserve_entry>` whose `Err` is
`unwrap`ped — a panic when `offset + 16` overruns the buffer), then stop on
the `{0, 0}` terminator, else yield and advance 16 bytes. -/
def rsv_next (d : DevTree) (offset : Nat) : RsvOut :=
  match d.totalsize with
  | none => .panic
  | some ts =>
    if offset > ts then .stop
    else if offset + 16 > d.buf.length then .panic
    else
      let a := beU64val d.buf offset
      let s := beU64val d.buf (offset + 8)
      if a = 0 ∧ s = 0 then .stop else .yield a s (offset + 16)

/-! ## Streaming iterator (src/base/iters.rs, `DevTreeIter`)

The streaming layer is embedded at the token level: `DevTreeIter` pulls
`ParsedTok` values out of `next_devtree_token` and the logic below consumes
the resulting token stream (the `toks` list).  The iterator state is the
remaining token list, the current `depth`, and the name of the most recent
still-open `BeginNode` (`current_prop_parent_off` in the source; properties
resolve their owning node through it, so the owner's name is what any
name-level observation of `DevTreeProp::node()` yields).  The Rust loops
`loop { match self.next() { ... } }` over the primary stepper are written as
direct recursions over the token list with the stepper's dispatch inlined;
the fusion lemmas below re-establish the loop structure against
`s_next_item`. -/

/-- An item yielded by the primary stepper: `DevTreeItem`.  A property
carries its value buffer, its name offset and its owning node's name. -/
inductive SItem where
  | node (name : List Nat)
  | prop (propBuf : List Nat) (nameOffset : Nat) (ownerName : List Nat)
deriving DecidableEq, Repr

/-- `DevTreeIter::next_item_with_depth`, with the depth projected away:
skip `Nop`, track depth and the property parent across `EndNode`, error on
a property with no open node, stop at the end of the stream. -/
def s_next_item : List ParsedTok → Int → Option (List Nat) →
    Except DevTreeError (Option (SItem × List ParsedTok × Int × Option (List Nat)))
  | [], _, _ => .ok none
  | .beginNode n :: rest, d, _ => .ok (some (.node n, rest, d + 1, some n))
  | .prop pb no :: rest, d, par =>
    match par with
    | none => .error .parseError
    | some pn => .ok (some (.prop pb no pn, rest, d, some pn))
  | .endNode :: rest, d, _ => s_next_item rest (d - 1) none
  | .nop :: rest, d, par => s_next_item rest d par

/-- `DevTreeIter::next_node`: the `next()` loop that skips property items. -/
def s_next_node : List ParsedTok → Int → Option (List Nat) →
    Except DevTreeError (Option (List Nat × List ParsedTok × Int × Option (List Nat)))
  | [], _, _ => .ok none
  | .beginNode n :: rest, d, _ => .ok (some (n, rest, d + 1, some n))
  | .prop _ _ :: rest, d, par =>
    match par with
    | none => .error .parseError
    | some pn => s_next_node rest d (some pn)
  | .endNode :: rest, d, _ => s_next_node rest (d - 1) none
  | .nop :: rest, d, par => s_next_node rest d par

/-- `DevTreeIter::next_prop`: the `next()` loop that skips node items. -/
def s_next_prop : List ParsedTok → Int → Option (List Nat) →
    Except DevTreeError
      (Option ((List Nat × Nat × List Nat) × List ParsedTok × Int × Option (List Nat)))
  | [], _, _ => .ok none
  | .beginNode n :: rest, d, _ => s_next_prop rest (d + 1) (some n)
  | .prop pb no :: rest, d, par =>
    match par with
    | none => .error .parseError
    | some pn => .ok (some ((pb, no, pn), rest, d, some pn))
  | .endNode :: rest, d, _ => s_next_prop rest (d - 1) none
  | .nop :: rest, d, par => s_next_prop rest d par

/-- Loop fusion: `s_next_node` is the `next_node` loop over `s_next_item`. -/
theorem s_next_node_fuses (toks : List ParsedTok) (d : Int) (par : Option (List Nat)) :
    s_next_node toks d par =
      match s_next_item toks d par with
      | .error e => .error e
      | .ok none => .ok none
      | .ok (some (.node n, st)) => .ok (some (n, st))
      | .ok (some (.prop _ _ _, toks2, d2, par2)) => s_next_node toks2 d2 par2 := by
  induction toks generalizing d par with
  | nil => rfl
  | cons t rest ih =>
    cases t with
    | beginNode n => rfl
    | endNode => simpa [s_next_item, s_next_node] using ih (d - 1) none
    | nop => simpa [s_next_item, s_next_node] using ih d par
    | prop pb no =>
      cases par with
      | none => rfl
      | some pn => simp [s_next_item, s_next_node, ih d (some pn)]

/-- Loop fusion: `s_next_prop` is the `next_prop` loop over `s_next_item`. -/
theorem s_next_prop_fuses (toks : List ParsedTok) (d : Int) (par : Option (List Nat)) :
    s_next_prop toks d par =
      match s_next_item toks d par with
      | .error e => .error e
      | .ok none => .ok none
      | .ok (some (.node _, toks2, d2, par2)) => s_next_prop toks2 d2 par2
      | .ok (some (.prop pb no pn, st)) => .ok (some ((pb, no, pn), st)) := by
  induction toks generalizing d par with
  | nil => rfl
  | cons t rest ih =>
    cases t with
    | beginNode n => rfl
    | endNode => simpa [s_next_item, s_next_prop] using ih (d - 1) none
    | nop => simpa [s_next_item, s_next_prop] using ih d par
    | prop pb no =>
      cases par with
      | none => rfl
      | some pn => rfl

/-! ## Property reader (src/common/prop.rs) -/

/-- The byte string "compatible". -/
def compatBytes : List Nat := [99, 111, 109, 112, 97, 116, 105, 98, 108, 101]

/-- `PropReader::get_str` via `get_string(0, true)`: the first
NUL-terminated byte string of the value buffer; a missing NUL is a
`ParseError` (per the specification's scoping the UTF-8 validation is the
identity on the byte slice). -/
def str0 (propBuf : List Nat) : Except DevTreeError (List Nat) :=
  match read_bstring0 propBuf 0 with
  | some seg => .ok seg
  | none => .error .parseError

/-- `PropReader::name` (`get_prop_str`): the NUL-terminated byte string at
`off_dt_strings + nameoff` in the blob. -/
def prop_name (blob : List Nat) (offStrings nameOffset : Nat) :
    Except DevTreeError (List Nat) :=
  match read_bstring0 blob (offStrings + nameOffset) with
  | some seg => .ok seg
  | none => .error .parseError

/-! ## Streaming compatible-node search
(src/base/iters.rs, `DevTreeIter::next_compatible_node`) -/

/-- The property-scanning loop of `next_compatible_node`: pull the next
property; propagate its `name()?` error; when the name is "compatible",
compare `prop.str()?` — the FIRST string only — with the search string;
return the matching property's owning node. -/
def s_compat_loop (blob : List Nat) (offStrings : Nat) (s : List Nat) :
    List ParsedTok → Int → Option (List Nat) →
    Except DevTreeError (Option (List Nat))
  | [], _, _ => .ok none
  | .beginNode n :: rest, d, _ => s_compat_loop blob offStrings s rest (d + 1) (some n)
  | .prop pb no :: rest, d, par =>
    match par with
    | none => .error .parseError
    | some owner =>
      match prop_name blob offStrings no with
      | .error e => .error e
      | .ok nm =>
        if nm = compatBytes then
          match str0 pb with
          | .error e => .error e
          | .ok first =>
            if first = s then .ok (some owner)
            else s_compat_loop blob offStrings s rest d (some owner)
        else s_compat_loop blob offStrings s rest d (some owner)
  | .endNode :: rest, d, _ => s_compat_loop blob offStrings s rest (d - 1) none
  | .nop :: rest, d, par => s_compat_loop blob offStrings s rest d par

/-- Loop fusion: `s_compat_loop` is the source's `loop` over `next_prop`
with the short-circuit `name()? == "compatible" && str()? == string`
check. -/
theorem s_compat_loop_fuses (blob : List Nat) (offStrings : Nat) (s : List Nat)
    (toks : List ParsedTok) (d : Int) (par : Option (List Nat)) :
    s_compat_loop blob offStrings s toks d par =
      match s_next_prop toks d par with
      | .error e => .error e
      | .ok none => .ok none
      | .ok (some ((pb, no, owner), toks2, d2, par2)) =>
        match prop_name blob offStrings no with
        | .error e => .error e
        | .ok nm =>
          if nm = compatBytes then
            match str0 pb with
            | .error e => .error e
            | .ok first =>
              if first = s then .ok (some owner)
              else s_compat_loop blob offStrings s toks2 d2 par2
          else s_compat_loop blob offStrings s toks2 d2 par2 := by
  induction toks generalizing d par with
  | nil => rfl
  | cons t rest ih =>
    cases t with
    | beginNode n => simp [s_next_prop, s_compat_loop, ih (d + 1) (some n)]
    | endNode => simpa [s_next_prop, s_compat_loop] using ih (d - 1) none
    | nop => simpa [s_next_prop, s_compat_loop] using ih d par
    | prop pb no =>
      cases par with
      | none => rfl
      | some pn => rfl

/-- `DevTreeIter::next_compatible_node`: advance over the next node, then
run the property-scanning loop (when `next_node` finds no node the
iterator is exhausted and the loop immediately yields `None`, which the
`ok none` branch returns directly). -/
def s_next_compatible (blob : List Nat) (offStrings : Nat) (s : List Nat)
    (toks : List ParsedTok) (d : Int) (par : Option (List Nat)) :
    Except DevTreeError (Option (List Nat)) :=
  match s_next_node toks d par with
  | .error e => .error e
  | .ok none => .ok none
  | .ok (some (_, toks2, d2, par2)) => s_compat_loop blob offStrings s toks2 d2 par2

/-- Specification-side restatement of the streaming search, written from
the amended claim: walk the tokens once; before the first node item only
skip; after it, return the owner of the first property named "compatible"
whose FIRST NUL-separated string equals `s`. -/
def compatSpecScan (blob : List Nat) (offStrings : Nat) (s : List Nat) :
    Bool → Option (List Nat) → List ParsedTok →
    Except DevTreeError (Option (List Nat))
  | _, _, [] => .ok none
  | _, _, .beginNode n :: rest => compatSpecScan blob offStrings s true (some n) rest
  | seenNode, par, .prop pb no :: rest =>
    match par with
    | none => .error .parseError
    | some owner =>
      if seenNode then
        match prop_name blob offStrings no with
        | .error e => .error e
        | .ok nm =>
          if nm = compatBytes then
            match str0 pb with
            | .error e => .error e
            | .ok first =>
              if first = s then .ok (some owner)
              else compatSpecScan blob offStrings s seenNode (some owner) rest
          else compatSpecScan blob offStrings s seenNode (some owner) rest
      else compatSpecScan blob offStrings s seenNode (some owner) rest
  | seenNode, _, .endNode :: rest => compatSpecScan blob offStrings s seenNode none rest
  | seenNode, par, .nop :: rest => compatSpecScan blob offStrings s seenNode par rest

/-! ## Streaming node-name collection (`DevTree::nodes`) -/

/-- Collect the names yielded by repeated `next_node` calls.  `fuel` bounds
the number of calls (any bound at least the node count is exact). -/
def s_nodes_fuel : Nat → List ParsedTok → Int → Option (List Nat) →
    Except DevTreeError (List (List Nat))
  | 0, _, _, _ => .ok []
  | fuel + 1, toks, d, par =>
    match s_next_node toks d par with
    | .error e => .error e
    | .ok none => .ok []
    | .ok (some (n, toks2, d2, par2)) =>
      match s_nodes_fuel fuel toks2 d2 par2 with
      | .error e => .error e
      | .ok names => .ok (n :: names)

/-! ## Index arena and builder (src/index/tree.rs)

The caller-supplied work buffer is modelled as a list of records in
allocation order; a raw `*const DTINode` is the index of its record, and
null pointers are `none`.  Capacity is tracked in bytes through `front_off`
against `cap` with the record sizes of the reference LP64 target
(`size_of::<DTINode>() = 48`, `size_of::<DTIProp>() = 24`; both alignments
are 8 and the arena base is aligned, so `aligned_ptr_in` never inserts
padding between records).  Property records sit immediately after their
node record in allocation order, exactly as in the packed arena, so
`DTINode::prop_unchecked(idx)` is the record at `node + 1 + idx`. -/

/-- `size_of::<DTINode>()` on the reference 64-bit target. -/
def nodeRecSize : Nat := 48

/-- `size_of::<DTIProp>()` on the reference 64-bit target. -/
def propRecSize : Nat := 24

/-- `DTINode` (the pointer fields as arena indices). -/
structure DTINode where
  parent : Option Nat
  first_child : Option Nat
  next : Option Nat
  name : List Nat
  num_props : Nat
deriving DecidableEq, Repr

/-- One record of the arena: a node record or a property record. -/
inductive DTIRec where
  | node (rec : DTINode)
  | prop (propBuf : List Nat) (nameOffset : Nat)
deriving DecidableEq, Repr

/-- Read a node record through an arena pointer (`*const DTINode`). -/
def getNodeRec (arena : List DTIRec) (i : Nat) : Option DTINode :=
  match arena[i]? with
  | some (.node rec) => some rec
  | _ => none

/-- Write through an arena node pointer (`List.set` is the in-place store;
a non-node target would be a wild write, which never happens in a run). -/
def updNodeAt (arena : List DTIRec) (i : Nat) (f : DTINode → DTINode) : List DTIRec :=
  match arena[i]? with
  | some (.node rec) => arena.set i (.node (f rec))
  | _ => arena

/-- `DTIBuilder`. -/
structure DTIBuilder where
  arena : List DTIRec
  cur_node : Option Nat
  prev_new_node : Option Nat
  in_node_header : Bool
  front_off : Nat
  cap : Nat
deriving DecidableEq, Repr

/-- The builder over an untouched buffer of `cap` bytes. -/
def emptyBuilder (cap : Nat) : DTIBuilder :=
  ⟨[], none, none, false, 0, cap⟩

/-- `DTIBuilder::parsed_node`.  Statement order follows the source: set
`in_node_header`, allocate (or fail with `NotEnoughMemory`), write the
fresh record, then — when there is a parent — thread `next` through
`prev_new_node`, through the parent's previous `next` target, and through
the parent itself, reading the parent's `next` AFTER the `prev_new_node`
store (the aliasing when `prev_new_node == parent` is exactly the
source's).  A null `prev_new_node` alongside a non-null parent would be the
`debug_assert` / wild-store path, modelled as a panic. -/
def parsed_node (b : DTIBuilder) (name : List Nat) : POut DTIBuilder :=
  let b := { b with in_node_header := true }
  if b.front_off + nodeRecSize ≤ b.cap then
    let newIdx := b.arena.length
    let newRec : DTINode :=
      { parent := b.cur_node, first_child := none, next := none,
        name := name, num_props := 0 }
    let arena0 := b.arena ++ [DTIRec.node newRec]
    match b.cur_node with
    | none =>
      .ok { b with arena := arena0, cur_node := some newIdx,
                   prev_new_node := some newIdx,
                   front_off := b.front_off + nodeRecSize }
    | some parent =>
      match b.prev_new_node with
      | none => .panic
      | some prev =>
        let arena1 := updNodeAt arena0 prev (fun r => { r with next := some newIdx })
        let arena2 :=
          match getNodeRec arena1 parent with
          | some pr =>
            match pr.next with
            | some prevSib => updNodeAt arena1 prevSib (fun r => { r with next := some newIdx })
            | none => arena1
          | none => arena1
        let arena3 := updNodeAt arena2 parent (fun r => { r with next := some newIdx })
        let arena4 :=
          match getNodeRec arena3 parent with
          | some pr =>
            if pr.first_child = none then
              updNodeAt arena3 parent (fun r => { r with first_child := some newIdx })
            else arena3
          | none => arena3
        .ok { b with arena := arena4, cur_node := some newIdx,
                     prev_new_node := some newIdx,
                     front_off := b.front_off + nodeRecSize }
  else .err .notEnoughMemory

/-- `DTIBuilder::parsed_prop`: reject a property outside a node header,
allocate (or fail), bump the current node's `num_props` and store the
property record. -/
def parsed_prop (b : DTIBuilder) (propBuf : List Nat) (nameOffset : Nat) :
    POut DTIBuilder :=
  if b.in_node_header = false then .err .parseError
  else if b.front_off + propRecSize ≤ b.cap then
    match b.cur_node with
    | none => .panic
    | some cur =>
      .ok { b with
            arena := updNodeAt b.arena cur (fun r => { r with num_props := r.num_props + 1 })
                       ++ [DTIRec.prop propBuf nameOffset],
            front_off := b.front_off + propRecSize }
  else .err .notEnoughMemory

/-- `DTIBuilder::parsed_end_node`: an `EndNode` with no open node is a
`ParseError`; otherwise pop back to the parent and leave the node header. -/
def parsed_end_node (b : DTIBuilder) : POut DTIBuilder :=
  match b.cur_node with
  | none => .err .parseError
  | some cur =>
    match getNodeRec b.arena cur with
    | none => .panic
    | some rec => .ok { b with cur_node := rec.parent, in_node_header := false }

/-- The loop of `DevTreeIndex::init_builder` over the already-constructed
empty builder: skip `Nop`s; the first `BeginNode` creates the root and
returns; any other token — or the end of the stream — is a `ParseError`. -/
def init_builder_loop (b : DTIBuilder) : List ParsedTok →
    POut (DTIBuilder × List ParsedTok)
  | [] => .err .parseError
  | .beginNode name :: rest =>
    match parsed_node b name with
    | .ok b2 => .ok (b2, rest)
    | .err e => .err e
    | .panic => .panic
  | .nop :: rest => init_builder_loop b rest
  | .prop _ _ :: _ => .err .parseError
  | .endNode :: _ => .err .parseError

/-- `DevTreeIndex::init_builder`. -/
def init_builder (cap : Nat) (toks : List ParsedTok) :
    POut (DTIBuilder × List ParsedTok) :=
  init_builder_loop (emptyBuilder cap) toks

/-- The token loop of `DevTreeIndex::new` after `init_builder`. -/
def build_loop (b : DTIBuilder) : List ParsedTok → POut DTIBuilder
  | [] => .ok b
  | .beginNode name :: rest =>
    match parsed_node b name with
    | .ok b2 => build_loop b2 rest
    | .err e => .err e
    | .panic => .panic
  | .prop pb no :: rest =>
    match parsed_prop b pb no with
    | .ok b2 => build_loop b2 rest
    | .err e => .err e
    | .panic => .panic
  | .endNode :: rest =>
    match parsed_end_node b with
    | .ok b2 => build_loop b2 rest
    | .err e => .err e
    | .panic => .panic
  | .nop :: rest => build_loop b rest

/-- `DevTreeIndex::new` over the structure block's token stream: run
`init_builder`, capture the root pointer (the source's `debug_assert` that
it is non-null, and every later dereference of it, make a null root a
panic), then consume the remaining tokens.  Returns the arena and the root
index. -/
def index_new (cap : Nat) (toks : List ParsedTok) : POut (List DTIRec × Nat) :=
  match init_builder cap toks with
  | .err e => .err e
  | .panic => .panic
  | .ok (b, rest) =>
    match b.cur_node with
    | none => .panic
    | some root =>
      match build_loop b rest with
      | .err e => .err e
      | .panic => .panic
      | .ok b2 => .ok (b2.arena, root)

/-- `DTINode::next_sibling`: follow `next` and keep it only when the
target's parent equals this record's parent. -/
def next_sibling (arena : List DTIRec) (i : Nat) : Option Nat :=
  match getNodeRec arena i with
  | none => none
  | some rec =>
    match rec.next with
    | none => none
    | some nx =>
      match getNodeRec arena nx with
      | none => none
      | some nxRec => if nxRec.parent = rec.parent then some nx else none

/-- `DTINode::next_dfs`: `first_child` if non-null, else `next`. -/
def next_dfs (arena : List DTIRec) (i : Nat) : Option Nat :=
  match getNodeRec arena i with
  | none => none
  | some rec =>
    match rec.first_child with
    | some c => some c
    | none => rec.next

/-! ## Indexed iterator (src/index/iters.rs, `DevTreeIndexIter`) -/

/-- `DevTreeIndexIter`'s state. -/
structure IdxIter where
  node : Option Nat
  prop_idx : Nat
  initial_returned : Bool
deriving DecidableEq, Repr

/-- An item yielded by `next_devtree_item`: the node record's index, or a
property identified by its owner and its arena position
(`owner + 1 + prop_idx`, the address `prop_unchecked` computes). -/
inductive IdxItem where
  | node (i : Nat)
  | prop (owner arenaPos : Nat)
deriving DecidableEq, Repr

/-- `DevTreeIndexIter::next_devtree_item`: first return the initial node,
then its properties in order, then step `next_dfs`.  (On a `None` from
`next_dfs` the source also clears `node`; the emitted sequence is the
same.) -/
def idx_next_item (arena : List DTIRec) (it : IdxIter) : Option (IdxItem × IdxIter) :=
  match it.node with
  | none => none
  | some cur =>
    if it.initial_returned = false then
      some (.node cur, { it with initial_returned := true })
    else
      match getNodeRec arena cur with
      | none => none
      | some rec =>
        if it.prop_idx < rec.num_props then
          some (.prop cur (cur + 1 + it.prop_idx), { it with prop_idx := it.prop_idx + 1 })
        else
          match next_dfs arena cur with
          | some n2 => some (.node n2, { it with prop_idx := 0, node := some n2 })
          | none => none

/-- The iterator `DevTreeIndexIter::new` starts from
(`from_node_include` of the root). -/
def idx_iter_new (root : Nat) : IdxIter := ⟨some root, 0, false⟩

/-- Collect up to `fuel` items of the indexed iterator. -/
def idx_items_fuel (arena : List DTIRec) : Nat → IdxIter → List IdxItem
  | 0, _ => []
  | fuel + 1, it =>
    match idx_next_item arena it with
    | none => []
    | some (item, it2) => item :: idx_items_fuel arena fuel it2

/-- The node-name subsequence of the first `fuel` indexed items
(`DevTreeIndex::nodes` composed with `DevTreeIndexNode::name`). -/
def idx_node_names (arena : List DTIRec) (fuel : Nat) (it : IdxIter) :
    List (List Nat) :=
  (idx_items_fuel arena fuel it).filterMap fun item =>
    match item with
    | .node i => (getNodeRec arena i).map (·.name)
    | .prop _ _ => none

/-! ## Facts about the zero-byte scan -/

theorem findZeroGo_some (buf : List Nat) :
    ∀ count pos i, findZeroGo buf count pos = some i →
      pos ≤ i ∧ i < pos + count ∧ buf.getD i 0 = 0 ∧
        ∀ j, pos ≤ j → j < i → buf.getD j 0 ≠ 0 := by
  intro count
  induction count with
  | zero => intro pos i h; simp [findZeroGo] at h
  | succ c ih =>
    intro pos i h
    unfold findZeroGo at h
    by_cases h0 : buf.getD pos 0 = 0
    · rw [if_pos h0] at h
      injection h with h
      subst h
      exact ⟨Nat.le_refl _, by omega, h0, fun j h1 h2 => absurd (Nat.lt_of_lt_of_le h2 h1) (by omega)⟩
    · rw [if_neg h0] at h
      obtain ⟨h1, h2, h3, h4⟩ := ih (pos + 1) i h
      refine ⟨by omega, by omega, h3, fun j hj1 hj2 => ?_⟩
      rcases Nat.eq_or_lt_of_le hj1 with rfl | hlt
      · exact h0
      · exact h4 j hlt hj2

theorem findZeroGo_none (buf : List Nat) :
    ∀ count pos, findZeroGo buf count pos = none →
      ∀ i, pos ≤ i → i < pos + count → buf.getD i 0 ≠ 0 := by
  intro count
  induction count with
  | zero => intro pos _ i h1 h2; omega
  | succ c ih =>
    intro pos h i h1 h2
    unfold findZeroGo at h
    by_cases h0 : buf.getD pos 0 = 0
    · rw [if_pos h0] at h; exact absurd h (by simp)
    · rw [if_neg h0] at h
      rcases Nat.eq_or_lt_of_le h1 with rfl | hlt
      · exact h0
      · exact ih (pos + 1) h i hlt (by omega)

theorem findZeroGo_isSome (buf : List Nat) :
    ∀ count pos i, pos ≤ i → i < pos + count → buf.getD i 0 = 0 →
      (findZeroGo buf count pos).isSome := by
  intro count
  induction count with
  | zero => intro pos i h1 h2; omega
  | succ c ih =>
    intro pos i h1 h2 h0
    unfold findZeroGo
    by_cases hp : buf.getD pos 0 = 0
    · rw [if_pos hp]; rfl
    · have hne : pos ≠ i := fun h => hp (h ▸ h0)
      rw [if_neg hp]
      exact ih (pos + 1) i (by omega) (by omega) h0

/-- A successful `read_bstring0` locates the first zero byte: the returned
slice is the run of non-zero bytes from `pos` up to it. -/
theorem read_bstring0_some (buf : List Nat) (pos : Nat) (seg : List Nat)
    (h : read_bstring0 buf pos = some seg) :
    pos + seg.length < buf.length ∧ buf.getD (pos + seg.length) 0 = 0 ∧
      (∀ j, j < seg.length → buf.getD (pos + j) 0 ≠ 0) ∧
      seg = (buf.drop pos).take seg.length := by
  unfold read_bstring0 findZeroInRange at h
  cases hf : findZeroGo buf (buf.length - pos) pos with
  | none => rw [hf] at h; exact absurd h (by simp)
  | some i =>
    rw [hf] at h
    obtain ⟨h1, h2, h3, h4⟩ := findZeroGo_some buf _ _ _ hf
    have hseg : seg = (buf.drop pos).take (i - pos) := by
      simpa using h.symm
    have hlen : seg.length = i - pos := by
      rw [hseg]
      simp [List.length_take, List.length_drop]
      omega
    have hpi : pos + seg.length = i := by omega
    refine ⟨by omega, by rw [hpi]; exact h3, fun j hj => ?_, by rw [hlen]; exact hseg⟩
    exact h4 (pos + j) (by omega) (by omega)

/-- A failing `read_bstring0`: no zero byte from `pos` to the end. -/
theorem read_bstring0_none (buf : List Nat) (pos : Nat)
    (h : read_bstring0 buf pos = none) :
    ∀ i, pos ≤ i → i < buf.length → buf.getD i 0 ≠ 0 := by
  unfold read_bstring0 findZeroInRange at h
  cases hf : findZeroGo buf (buf.length - pos) pos with
  | some i => rw [hf] at h; exact absurd h (by simp)
  | none =>
    intro i h1 h2
    exact findZeroGo_none buf _ _ hf i h1 (by omega)

/-! ## Indexed string-list search
(src/index/iters.rs `next_compatible_node` + src/common/prop.rs)

Modelled from the spec: the lazy `StringPropIter` behind `iter_str` is not
among the sources; its `next` is modelled from spec section 4.6 ("a
restartable lazy sequence of strings — NUL-separated slices over the
value-buf ... terminates when the cursor reaches the value-buf's end; fails
on unterminated ... entries"), which coincides with the in-source eager
walk `iter_str_list` (offset cursor from 0, `get_string` per step, done at
`offset == length`). -/

/-- The candidate loop of the indexed `next_compatible_node` on one
"compatible" property: walk the NUL-separated strings of `propBuf` from
byte `off`, returning `some true` on a string equal to `s`, `some false`
at a clean end, and `none` when an iteration error aborts the whole search
(the source's `candidates.next().ok()?`). -/
def strListContainsFrom (propBuf s : List Nat) (off : Nat) : Option Bool :=
  if off = propBuf.length then some false
  else
    match h : read_bstring0 propBuf off with
    | none => none
    | some seg =>
      if seg = s then some true
      else strListContainsFrom propBuf s (off + (seg.length + 1))
termination_by propBuf.length - off
decreasing_by
  have := (read_bstring0_some propBuf off seg h).1
  omega

/-- The indexed layer's match of one "compatible" property value against a
search string: the walk from offset 0. -/
def idx_compat_match (propBuf s : List Nat) : Option Bool :=
  strListContainsFrom propBuf s 0

/-- Extend the first chunk of a split by one byte. -/
def consHead (b : Nat) : List (List Nat) → List (List Nat)
  | [] => [[b]]
  | seg :: more => (b :: seg) :: more

/-- Specification-side splitter: cut a byte list at every zero byte. -/
def splitOnZero : List Nat → List (List Nat)
  | [] => [[]]
  | b :: rest =>
    if b = 0 then [] :: splitOnZero rest else consHead b (splitOnZero rest)

/-- Specification-side string list of a NUL-terminated value buffer: the
chunks before each NUL. -/
def nulSplit (l : List Nat) : List (List Nat) := (splitOnZero l).dropLast

/-- The value buffer ends with a NUL (the shape `iter_str` can finish on). -/
def NulTerminated (l : List Nat) : Prop :=
  l ≠ [] → l.getD (l.length - 1) 0 = 0

instance (l : List Nat) : Decidable (NulTerminated l) := by
  unfold NulTerminated; infer_instance

theorem splitOnZero_ne_nil (l : List Nat) : splitOnZero l ≠ [] := by
  cases l with
  | nil => simp [splitOnZero]
  | cons b rest =>
    unfold splitOnZero
    by_cases hb : b = 0
    · rw [if_pos hb]; simp
    · rw [if_neg hb]
      cases splitOnZero rest with
      | nil => simp [consHead]
      | cons seg more => simp [consHead]

theorem splitOnZero_chunk (seg rest : List Nat) (hseg : ∀ b ∈ seg, b ≠ 0) :
    splitOnZero (seg ++ 0 :: rest) = seg :: splitOnZero rest := by
  induction seg with
  | nil => simp [splitOnZero]
  | cons b seg ih =>
    have hb : b ≠ 0 := hseg b (by simp)
    have ih2 := ih (fun x hx => hseg x (by simp [hx]))
    have hstep : splitOnZero ((b :: seg) ++ 0 :: rest) =
        consHead b (splitOnZero (seg ++ 0 :: rest)) := by
      simp only [List.cons_append, splitOnZero, if_neg hb]
      rfl
    rw [hstep, ih2]
    rfl

theorem nulSplit_chunk (seg rest : List Nat) (hseg : ∀ b ∈ seg, b ≠ 0) :
    nulSplit (seg ++ 0 :: rest) = seg :: nulSplit rest := by
  unfold nulSplit
  rw [splitOnZero_chunk seg rest hseg]
  cases hsz : splitOnZero rest with
  | nil => exact absurd hsz (splitOnZero_ne_nil rest)
  | cons a more => simp [List.dropLast]

theorem getD_drop (l : List Nat) (i j : Nat) :
    (l.drop i).getD j 0 = l.getD (i + j) 0 := by
  simp [List.getD_eq_getElem?_getD, List.getElem?_drop]

/-- The walk of the indexed "compatible" matcher computes membership in the
NUL-separated string list, for any NUL-terminated value buffer. -/
theorem strListContainsFrom_eq (propBuf s : List Nat) (hwf : NulTerminated propBuf) :
    ∀ k off, off ≤ propBuf.length → propBuf.length - off ≤ k →
      strListContainsFrom propBuf s off =
        some (decide (s ∈ nulSplit (propBuf.drop off))) := by
  intro k
  induction k with
  | zero =>
    intro off h1 h2
    have hoff : off = propBuf.length := by omega
    rw [strListContainsFrom, if_pos hoff, hoff]
    simp [nulSplit, splitOnZero, List.drop_length]
  | succ k ih =>
    intro off h1 h2
    by_cases hoff : off = propBuf.length
    · rw [strListContainsFrom, if_pos hoff, hoff]
      simp [nulSplit, splitOnZero, List.drop_length]
    · have hlt : off < propBuf.length := by omega
      cases hrb : read_bstring0 propBuf off with
      | none =>
        exfalso
        have hnz := read_bstring0_none propBuf off hrb (propBuf.length - 1) (by omega) (by omega)
        have hne : propBuf ≠ [] := by
          intro h; rw [h] at hlt; simp at hlt
        exact hnz (hwf hne)
      | some seg =>
        obtain ⟨hb, hz, hnonzero, hseg⟩ := read_bstring0_some propBuf off seg hrb
        -- decompose the suffix at the first NUL
        set l := propBuf.drop off with hl
        have hlen : l.length = propBuf.length - off := by simp [hl]
        have hln : seg.length < l.length := by omega
        have hdecomp : l = seg ++ 0 :: l.drop (seg.length + 1) := by
          have h3 : l.drop seg.length = l.getD seg.length 0 :: l.drop (seg.length + 1) := by
            rw [List.getD_eq_getElem l 0 hln]
            exact List.drop_eq_getElem_cons hln
          have h4 : l.getD seg.length 0 = 0 := by
            rw [hl, getD_drop]; exact hz
          have h5 := List.take_append_drop seg.length l
          rw [h3, h4] at h5
          rw [← hseg] at h5
          exact h5.symm
        have hsegnz : ∀ b ∈ seg, b ≠ 0 := by
          intro b hbmem
          rw [hseg] at hbmem
          obtain ⟨j, hj, hbj⟩ := List.mem_iff_getElem.mp hbmem
          have hjlen : j < seg.length := by
            have := hj
            simp [List.length_take] at this
            omega
          have : ((propBuf.drop off).take seg.length).getD j 0 = b := by
            rw [List.getD_eq_getElem _ 0 hj, hbj]
          rw [List.getD_eq_getElem?_getD, List.getElem?_take_of_lt hjlen,
            ← List.getD_eq_getElem?_getD, getD_drop] at this
          rw [← this]
          exact hnonzero j hjlen
        have hsplit : nulSplit l = seg :: nulSplit (l.drop (seg.length + 1)) := by
          rw [hdecomp, nulSplit_chunk seg _ hsegnz]
          rw [← hdecomp]
        have hdd : l.drop (seg.length + 1) = propBuf.drop (off + (seg.length + 1)) := by
          rw [hl, List.drop_drop]
        rw [strListContainsFrom, if_neg hoff, hrb]
        show (if seg = s then some true
            else strListContainsFrom propBuf s (off + (seg.length + 1))) =
          some (decide (s ∈ nulSplit l))
        by_cases hss : seg = s
        · rw [if_pos hss, hsplit, hss]
          simp
        · rw [if_neg hss]
          have hrec := ih (off + (seg.length + 1)) (by omega) (by omega)
          rw [hrec, hsplit, ← hdd]
          simp only [Option.some.injEq, decide_eq_decide, List.mem_cons]
          constructor
          · exact fun h => Or.inr h
          · rintro (h | h)
            · exact absurd h.symm hss
            · exact h

/-- `idx_compat_match` is list membership on NUL-terminated buffers. -/
theorem idx_compat_match_eq (propBuf s : List Nat) (hwf : NulTerminated propBuf) :
    idx_compat_match propBuf s = some (decide (s ∈ nulSplit propBuf)) := by
  have := strListContainsFrom_eq propBuf s hwf propBuf.length 0 (by omega) (by omega)
  simpa [idx_compat_match] using this

/-! ## Streaming compatible-search characterization -/

theorem s_compat_loop_eq_scan (blob : List Nat) (offStrings : Nat) (s : List Nat) :
    ∀ toks (d : Int) (par : Option (List Nat)),
      s_compat_loop blob offStrings s toks d par =
        compatSpecScan blob offStrings s true par toks := by
  intro toks
  induction toks with
  | nil => intro d par; rfl
  | cons t rest ih =>
    intro d par
    cases t with
    | beginNode n => simp [s_compat_loop, compatSpecScan, ih]
    | endNode => simp [s_compat_loop, compatSpecScan, ih]
    | nop => simp [s_compat_loop, compatSpecScan, ih]
    | prop pb no =>
      cases par with
      | none => rfl
      | some owner =>
        cases hpn : prop_name blob offStrings no with
        | error e => simp [s_compat_loop, compatSpecScan, hpn]
        | ok nm =>
          by_cases hnm : nm = compatBytes
          · cases hstr : str0 pb with
            | error e => simp [s_compat_loop, compatSpecScan, hpn, hnm, hstr]
            | ok first =>
              by_cases hf : first = s
              · simp [s_compat_loop, compatSpecScan, hpn, hnm, hstr, hf]
              · simp [s_compat_loop, compatSpecScan, hpn, hnm, hstr, hf, ih]
          · simp [s_compat_loop, compatSpecScan, hpn, hnm, ih]

/-- The streaming `next_compatible_node` equals the specification-side
single scan: after the first node item, return the owner of the first
property named "compatible" whose first NUL-terminated string equals the
search string. -/
theorem s_next_compatible_eq_scan (blob : List Nat) (offStrings : Nat) (s : List Nat) :
    ∀ toks (d : Int) (par : Option (List Nat)),
      s_next_compatible blob offStrings s toks d par =
        compatSpecScan blob offStrings s false par toks := by
  intro toks
  induction toks with
  | nil => intro d par; rfl
  | cons t rest ih =>
    intro d par
    cases t with
    | beginNode n =>
      simp only [s_next_compatible, s_next_node, compatSpecScan]
      exact s_compat_loop_eq_scan blob offStrings s rest (d + 1) (some n)
    | endNode =>
      simp only [s_next_compatible, s_next_node, compatSpecScan]
      exact ih (d - 1) none
    | nop =>
      simp only [s_next_compatible, s_next_node, compatSpecScan]
      exact ih d par
    | prop pb no =>
      cases par with
      | none => rfl
      | some pn =>
        simp only [s_next_compatible, s_next_node, compatSpecScan]
        exact ih d (some pn)

/-! ## Claim theorems -/

/-- C7: for a 32-bit-aligned buffer and 32-bit-aligned offset, whenever
`next_devtree_token` returns `Ok(Some(_))` the updated offset is again
32-bit aligned, strictly greater than the input offset, and equals the
input offset plus 4 plus the token's padded payload size. -/
theorem c7_token_offset_aligned (base : Nat) (buf : List Nat) (off : Nat)
    (tok : ParsedTok) (off2 : Nat)
    (hbase : base % 4 = 0) (hoff : off % 4 = 0)
    (h : next_devtree_token base buf off = .ok (some tok, off2)) :
    off2 % 4 = 0 ∧ off < off2 ∧ off2 = off + 4 + tokPaddedSize tok := by
  unfold next_devtree_token at h
  cases hv : readBeU32 buf off with
  | none => rw [hv] at h; exact absurd h (by simp)
  | some v =>
    rw [hv] at h
    dsimp only at h
    by_cases h1 : v = 1
    · rw [if_pos h1] at h
      cases hn : nread_bstring0 buf (off + 4) (MAX_NODE_NAME_LEN - 1) with
      | none => rw [hn] at h; exact absurd h (by simp)
      | some name =>
        rw [hn] at h
        have h2 := h
        simp only [Except.ok.injEq, Prod.mk.injEq, Option.some.injEq] at h2
        obtain ⟨htok, hoff2⟩ := h2
        subst htok
        rw [← hoff2]
        simp only [tokPaddedSize, alignOffset4, and_true]
        omega
    · rw [if_neg h1] at h
      by_cases h3 : v = 3
      · rw [if_pos h3] at h
        by_cases hb1 : off + 4 + 8 > buf.length
        · rw [if_pos hb1] at h; exact absurd h (by simp)
        · rw [if_neg hb1] at h
          by_cases hb2 : off + 4 + 8 + beU32val buf (off + 4) > buf.length
          · rw [if_pos hb2] at h; exact absurd h (by simp)
          · rw [if_neg hb2] at h
            by_cases hb3 : beU32val buf (off + 4 + 4) > buf.length
            · rw [if_pos hb3] at h; exact absurd h (by simp)
            · rw [if_neg hb3] at h
              have h2 := h
              simp only [Except.ok.injEq, Prod.mk.injEq, Option.some.injEq] at h2
              obtain ⟨htok, hoff2⟩ := h2
              subst htok
              rw [← hoff2]
              simp only [tokPaddedSize, alignOffset4, and_true]
              omega
      · rw [if_neg h3] at h
        by_cases h4 : v = 2
        · rw [if_pos h4] at h
          have h2 := h
          simp only [Except.ok.injEq, Prod.mk.injEq, Option.some.injEq] at h2
          obtain ⟨htok, hoff2⟩ := h2
          subst htok
          rw [← hoff2]
          simp only [tokPaddedSize, and_true]
          omega
        · rw [if_neg h4] at h
          by_cases h5 : v = 4
          · rw [if_pos h5] at h
            have h2 := h
            simp only [Except.ok.injEq, Prod.mk.injEq, Option.some.injEq] at h2
            obtain ⟨htok, hoff2⟩ := h2
            subst htok
            rw [← hoff2]
            simp only [tokPaddedSize, and_true]
            omega
          · rw [if_neg h5] at h
            by_cases h9 : v = 9
            · rw [if_pos h9] at h; exact absurd h (by simp)
            · rw [if_neg h9] at h; exact absurd h (by simp)

/-- C7 witness: an `EndNode` token at offset 0 of an aligned buffer. -/
theorem c7_witness :
    0 % 4 = 0 ∧
      next_devtree_token 0 [0, 0, 0, 2] 0 = .ok (some .endNode, 4) ∧
      (4 % 4 = 0 ∧ 0 < 4 ∧ 4 = 0 + 4 + tokPaddedSize ParsedTok.endNode) := by
  refine ⟨rfl, by decide, ?_⟩
  exact c7_token_offset_aligned 0 [0, 0, 0, 2] 0 ParsedTok.endNode 4 rfl rfl (by decide)

theorem nread_bstring0_some (buf : List Nat) (pos maxl : Nat) (seg : List Nat)
    (h : nread_bstring0 buf pos maxl = some seg) :
    seg.length < maxl ∧ pos + seg.length < buf.length ∧
      buf.getD (pos + seg.length) 0 = 0 ∧
      (∀ j, j < seg.length → buf.getD (pos + j) 0 ≠ 0) ∧
      seg = (buf.drop pos).take seg.length := by
  unfold nread_bstring0 findZeroInRange at h
  cases hf : findZeroGo buf (min (maxl + pos) buf.length - pos) pos with
  | none => rw [hf] at h; exact absurd h (by simp)
  | some i =>
    rw [hf] at h
    obtain ⟨h1, h2, h3, h4⟩ := findZeroGo_some buf _ _ _ hf
    have hseg : seg = (buf.drop pos).take (i - pos) := by simpa using h.symm
    have hstop : i < min (maxl + pos) buf.length := by omega
    have hlen : seg.length = i - pos := by
      rw [hseg]
      simp [List.length_take, List.length_drop]
      omega
    have hpi : pos + seg.length = i := by omega
    refine ⟨by omega, by omega, by rw [hpi]; exact h3, fun j hj => ?_,
      by rw [hlen]; exact hseg⟩
    exact h4 (pos + j) (by omega) (by omega)

theorem nread_bstring0_none (buf : List Nat) (pos maxl : Nat)
    (h : nread_bstring0 buf pos maxl = none) :
    ∀ i, pos ≤ i → i < pos + maxl → i < buf.length → buf.getD i 0 ≠ 0 := by
  unfold nread_bstring0 findZeroInRange at h
  cases hf : findZeroGo buf (min (maxl + pos) buf.length - pos) pos with
  | some i => rw [hf] at h; exact absurd h (by simp)
  | none =>
    intro i hi1 hi2 hi3
    exact findZeroGo_none buf _ _ hf i hi1 (by omega)

theorem nread_bstring0_isSome (buf : List Nat) (pos maxl i : Nat)
    (hi1 : pos ≤ i) (hi2 : i < pos + maxl) (hi3 : i < buf.length)
    (hz : buf.getD i 0 = 0) : ∃ seg, nread_bstring0 buf pos maxl = some seg := by
  unfold nread_bstring0 findZeroInRange
  have := findZeroGo_isSome buf (min (maxl + pos) buf.length - pos) pos i hi1 (by omega) hz
  cases hf : findZeroGo buf (min (maxl + pos) buf.length - pos) pos with
  | none => rw [hf] at this; simp at this
  | some j => exact ⟨(buf.drop pos).take (j - pos), rfl⟩

/-- C5 (amended): on a BeginNode token the name scan is bounded by
`MAX_NODE_NAME_LEN - 1 = 30` bytes.  Tokenization succeeds exactly when the
first NUL occurs within 30 bytes of the name's start; the returned name is
the run of non-NUL bytes before that NUL, hence at most 29 bytes long. -/
theorem c5_name_scan_bound (base : Nat) (buf : List Nat) (off : Nat)
    (h1 : readBeU32 buf off = some 1) :
    (∀ name off2,
        next_devtree_token base buf off = .ok (some (.beginNode name), off2) →
          name.length ≤ 29 ∧ buf.getD (off + 4 + name.length) 0 = 0 ∧
            (∀ j, j < name.length → buf.getD (off + 4 + j) 0 ≠ 0) ∧
            name = (buf.drop (off + 4)).take name.length) ∧
      ((∃ i, i < 30 ∧ off + 4 + i < buf.length ∧ buf.getD (off + 4 + i) 0 = 0) →
        ∃ name off2,
          next_devtree_token base buf off = .ok (some (.beginNode name), off2)) ∧
      ((∀ i, i < 30 → off + 4 + i < buf.length → buf.getD (off + 4 + i) 0 ≠ 0) →
        next_devtree_token base buf off = .error .parseError) := by
  have hm : MAX_NODE_NAME_LEN - 1 = 30 := rfl
  refine ⟨?_, ?_, ?_⟩
  · intro name off2 heq
    unfold next_devtree_token at heq
    rw [h1] at heq
    dsimp only at heq
    rw [if_pos rfl] at heq
    cases hn : nread_bstring0 buf (off + 4) (MAX_NODE_NAME_LEN - 1) with
    | none => rw [hn] at heq; exact absurd heq (by simp)
    | some seg =>
      rw [hn] at heq
      have heq2 := heq
      simp only [Except.ok.injEq, Prod.mk.injEq, Option.some.injEq,
        ParsedTok.beginNode.injEq] at heq2
      obtain ⟨hname, _⟩ := heq2
      subst hname
      rw [hm] at hn
      obtain ⟨ha, hb, hc, hd, he⟩ := nread_bstring0_some buf (off + 4) 30 seg hn
      exact ⟨by omega, hc, fun j hj => hd j hj, he⟩
  · rintro ⟨i, hi30, hilen, hiz⟩
    obtain ⟨seg, hseg⟩ :=
      nread_bstring0_isSome buf (off + 4) 30 (off + 4 + i) (by omega) (by omega) hilen hiz
    refine ⟨seg, off + 4 + seg.length + 1 +
      alignOffset4 (base + (off + 4 + seg.length + 1)), ?_⟩
    unfold next_devtree_token
    rw [h1]
    dsimp only
    rw [if_pos rfl, hm, hseg]
  · intro hnz
    unfold next_devtree_token
    rw [h1]
    dsimp only
    rw [if_pos rfl, hm]
    cases hn : nread_bstring0 buf (off + 4) 30 with
    | none => rfl
    | some seg =>
      obtain ⟨ha, hb, hc, _, _⟩ := nread_bstring0_some buf (off + 4) 30 seg hn
      exact absurd hc (hnz seg.length (by omega) hb)

/-- C5 counterexample: a BeginNode whose name is 30 non-NUL bytes followed
by a NUL — the first NUL is within 31 bytes of the name's start, yet the
tokenizer rejects the token, against the claim's 31-byte bound. -/
theorem c5_counterexample :
    (List.replicate 30 97 ++ [0]).getD 30 0 = 0 ∧
      next_devtree_token 0 ([0, 0, 0, 1] ++ (List.replicate 30 97 ++ [0])) 0 =
        .error .parseError := by
  constructor
  · decide
  · decide

/-- C5 witness: a 4-byte name succeeds, the returned name is the bytes
before the NUL and the bound holds. -/
theorem c5_witness :
    readBeU32 [0, 0, 0, 1, 97, 98, 99, 0] 0 = some 1 ∧
      next_devtree_token 0 [0, 0, 0, 1, 97, 98, 99, 0] 0 =
        .ok (some (.beginNode [97, 98, 99]), 8) ∧
      ([97, 98, 99] : List Nat).length ≤ 29 := by
  refine ⟨by decide, by decide, ?_⟩
  have h := (c5_name_scan_bound 0 [0, 0, 0, 1, 97, 98, 99, 0] 0 (by decide)).1
    [97, 98, 99] 8 (by decide)
  exact h.1

/-- A successful `DevTree::new` returns the tree over the given buffer. -/
theorem devtree_new_ok_eq (base : Nat) (buf : List Nat) (d : DevTree)
    (h : devtree_new base buf = .ok d) : d = ⟨base, buf⟩ := by
  unfold devtree_new at h
  repeat' split at h
  all_goals simp_all

theorem readBeU32_isSome (buf : List Nat) (k : Nat) (h : k + 4 ≤ buf.length) :
    (readBeU32 buf k).isSome := by
  unfold readBeU32
  rw [if_neg (by omega)]
  rfl

/-- C4: `DevTree::new` fails with ParseError exactly on `totalsize < len`;
with `totalsize ≥ len`, a valid magic and 32-bit-aligned buffer address,
`off_mem_rsvmap` and `off_dt_struct`, it succeeds. -/
theorem c4_new_totalsize_check (base : Nat) (buf : List Nat)
    (hbase : base % 4 = 0) (hlen : 40 ≤ buf.length)
    (hmagic : beU32val buf 0 = FDT_MAGIC) :
    (beU32val buf 4 < buf.length → devtree_new base buf = .err .parseError) ∧
      (buf.length ≤ beU32val buf 4 → beU32val buf 16 % 4 = 0 →
        beU32val buf 8 % 4 = 0 → devtree_new base buf = .ok ⟨base, buf⟩) := by
  have h0 : readBeU32 buf 0 = some (beU32val buf 0) := by
    unfold readBeU32; rw [if_neg (by omega)]
  have h4 : readBeU32 buf 4 = some (beU32val buf 4) := by
    unfold readBeU32; rw [if_neg (by omega)]
  have h8 : readBeU32 buf 8 = some (beU32val buf 8) := by
    unfold readBeU32; rw [if_neg (by omega)]
  have h16 : readBeU32 buf 16 = some (beU32val buf 16) := by
    unfold readBeU32; rw [if_neg (by omega)]
  have hrts : read_totalsize base buf = .ok (beU32val buf 4) := by
    unfold read_totalsize verify_magic
    rw [if_neg (by omega), h0]
    dsimp only
    rw [if_neg (by simp [hmagic])]
    dsimp only
    rw [h4]
  constructor
  · intro hts
    unfold devtree_new
    rw [hrts]
    dsimp only
    rw [if_pos hts]
  · intro hts hrsv hdts
    unfold devtree_new
    rw [hrts]
    dsimp only
    rw [if_neg (by omega), h16]
    dsimp only
    rw [if_neg (by omega), h8]
    dsimp only
    rw [if_neg (by omega)]

/-- Buffer accepted by `DevTree::new`: totalsize equals the length. -/
def c4bufOk : List Nat :=
  [208, 13, 254, 237, 0, 0, 0, 40, 0, 0, 0, 0, 0, 0, 0, 0, 0, 0, 0, 0,
   0, 0, 0, 0, 0, 0, 0, 0, 0, 0, 0, 0, 0, 0, 0, 0, 0, 0, 0, 0]

/-- Buffer rejected by `DevTree::new`: totalsize 8 is below the length. -/
def c4bufShort : List Nat :=
  [208, 13, 254, 237, 0, 0, 0, 8, 0, 0, 0, 0, 0, 0, 0, 0, 0, 0, 0, 0,
   0, 0, 0, 0, 0, 0, 0, 0, 0, 0, 0, 0, 0, 0, 0, 0, 0, 0, 0, 0]

/-- C4 witness: the theorem applied at two concrete 40-byte headers. -/
theorem c4_witness :
    devtree_new 0 c4bufShort = .err .parseError ∧
      devtree_new 0 c4bufOk = .ok ⟨0, c4bufOk⟩ := by
  constructor
  · exact (c4_new_totalsize_check 0 c4bufShort rfl (by decide) (by decide)).1 (by decide)
  · exact (c4_new_totalsize_check 0 c4bufOk rfl (by decide) (by decide)).2
      (by decide) (by decide) (by decide)

/-- A truncated blob: totalsize 100 but only 40 bytes supplied. -/
def c3buf : List Nat :=
  [208, 13, 254, 237, 0, 0, 0, 100, 0, 0, 0, 0, 0, 0, 0, 0, 0, 0, 0, 0,
   0, 0, 0, 0, 0, 0, 0, 0, 0, 0, 0, 0, 0, 0, 0, 0, 0, 0, 0, 0]

/-- C3 counterexample: a 32-bit-aligned buffer with a valid magic whose
`totalsize` (100) exceeds the buffer length (40) is accepted by
`DevTree::new` instead of failing with ParseError. -/
theorem c3_counterexample :
    beU32val c3buf 4 = 100 ∧ c3buf.length = 40 ∧
      devtree_new 0 c3buf = .ok ⟨0, c3buf⟩ := by
  refine ⟨by decide, by decide, by decide⟩

/-- C3 (amended): `DevTree::new` accepts a truncated blob — with an aligned
buffer address, a valid magic, a full header and aligned section offsets,
`totalsize > len` opens successfully; ParseError is produced only when
`totalsize < len`. -/
theorem c3_truncated_accepted (base : Nat) (buf : List Nat)
    (hbase : base % 4 = 0) (hlen : 40 ≤ buf.length)
    (hmagic : beU32val buf 0 = FDT_MAGIC)
    (hts : buf.length < beU32val buf 4)
    (hrsv : beU32val buf 16 % 4 = 0) (hdts : beU32val buf 8 % 4 = 0) :
    devtree_new base buf = .ok ⟨base, buf⟩ := by
  exact (c4_new_totalsize_check base buf hbase hlen hmagic).2 (by omega) hrsv hdts

/-- C3 witness: the amended theorem applied to the truncated blob. -/
theorem c3_witness : devtree_new 0 c3buf = .ok ⟨0, c3buf⟩ :=
  c3_truncated_accepted 0 c3buf rfl (by decide) (by decide) (by decide)
    (by decide) (by decide)

/-- C9: once the buffer holds a full 40-byte header, every header accessor
of a successfully opened `DevTree` returns a value — the internal `unwrap`
is unreachable. -/
theorem c9_header_accessors_total (base : Nat) (buf : List Nat) (d : DevTree)
    (hlen : 40 ≤ buf.length) (hok : devtree_new base buf = .ok d) :
    d.magic.isSome ∧ d.totalsize.isSome ∧ d.off_dt_struct.isSome ∧
      d.off_dt_strings.isSome ∧ d.off_mem_rsvmap.isSome ∧ d.version.isSome ∧
      d.last_comp_version.isSome ∧ d.boot_cpuid_phys.isSome ∧
      d.size_dt_strings.isSome ∧ d.size_dt_struct.isSome := by
  have hd := devtree_new_ok_eq base buf d hok
  subst hd
  refine ⟨?_, ?_, ?_, ?_, ?_, ?_, ?_, ?_, ?_, ?_⟩
  all_goals
    first
    | exact readBeU32_isSome buf 0 (by omega)
    | exact readBeU32_isSome buf 4 (by omega)
    | exact readBeU32_isSome buf 8 (by omega)
    | exact readBeU32_isSome buf 12 (by omega)
    | exact readBeU32_isSome buf 16 (by omega)
    | exact readBeU32_isSome buf 20 (by omega)
    | exact readBeU32_isSome buf 24 (by omega)
    | exact readBeU32_isSome buf 28 (by omega)
    | exact readBeU32_isSome buf 32 (by omega)
    | exact readBeU32_isSome buf 36 (by omega)

/-- A 40-byte header accepted by `DevTree::new` (for the C9 witness). -/
def c9buf : List Nat :=
  [208, 13, 254, 237, 0, 0, 0, 48, 0, 0, 0, 0, 0, 0, 0, 0, 0, 0, 0, 0,
   0, 0, 0, 0, 0, 0, 0, 0, 0, 0, 0, 0, 0, 0, 0, 0, 0, 0, 0, 0]

/-- C9 witness: the accessor-totality theorem at a concrete tree. -/
theorem c9_witness :
    devtree_new 0 c9buf = .ok ⟨0, c9buf⟩ ∧
      (DevTree.mk 0 c9buf).totalsize.isSome := by
  refine ⟨by decide, ?_⟩
  exact (c9_header_accessors_total 0 c9buf ⟨0, c9buf⟩ (by decide) (by decide)).2.1

/-- A blob opened successfully whose `off_mem_rsvmap` (40) sits at the very
end of the buffer: the first 16-byte reserve-entry read overruns it. -/
def c6buf : List Nat :=
  [208, 13, 254, 237, 0, 0, 0, 40, 0, 0, 0, 0, 0, 0, 0, 0, 0, 0, 0, 40,
   0, 0, 0, 0, 0, 0, 0, 0, 0, 0, 0, 0, 0, 0, 0, 0, 0, 0, 0, 0]

/-- C6: on a successfully opened tree, the reserve-entry iterator panics
(it `unwrap`s the `Err` of the bounds-checked `ptr_at`) when the cursor is
still within `totalsize` but fewer than 16 bytes remain in the buffer —
it does not return `None`. -/
theorem c6_reserve_panic :
    devtree_new 0 c6buf = .ok ⟨0, c6buf⟩ ∧
      (DevTree.mk 0 c6buf).off_mem_rsvmap = some 40 ∧
      rsv_next ⟨0, c6buf⟩ 40 = .panic := by
  refine ⟨by decide, by decide, by decide⟩

/-! ## Builder invariants -/

/-- Index `i` of the arena holds a node record. -/
def IsNodeAt (arena : List DTIRec) (i : Nat) : Prop :=
  ∃ rec, arena[i]? = some (DTIRec.node rec)

theorem updNodeAt_isNodeAt (a : List DTIRec) (j : Nat) (f : DTINode → DTINode)
    (i : Nat) (h : IsNodeAt a i) : IsNodeAt (updNodeAt a j f) i := by
  unfold updNodeAt
  cases hj : a[j]? with
  | none => exact h
  | some rec =>
    cases rec with
    | prop pb no => exact h
    | node n =>
      obtain ⟨r, hr⟩ := h
      by_cases hij : j = i
      · subst hij
        have hlt : j < a.length := by
          by_contra hge
          rw [List.getElem?_eq_none (by omega)] at hj
          exact absurd hj (by simp)
        exact ⟨f n, by rw [List.getElem?_set_self hlt]⟩
      · exact ⟨r, by rw [List.getElem?_set_ne hij]; exact hr⟩

theorem append_isNodeAt (a : List DTIRec) (x : DTIRec) (i : Nat)
    (h : IsNodeAt a i) : IsNodeAt (a ++ [x]) i := by
  obtain ⟨r, hr⟩ := h
  have hlt : i < a.length := by
    by_contra hge
    rw [List.getElem?_eq_none (by omega)] at hr
    exact absurd hr (by simp)
  exact ⟨r, by rw [List.getElem?_append_left hlt]; exact hr⟩

theorem parsed_node_isNodeAt (b : DTIBuilder) (name : List Nat)
    (b2 : DTIBuilder) (hb : parsed_node b name = .ok b2) (i : Nat)
    (h : IsNodeAt b.arena i) : IsNodeAt b2.arena i := by
  unfold parsed_node at hb
  by_cases hcap : b.front_off + nodeRecSize ≤ b.cap
  · rw [if_pos hcap] at hb
    dsimp only at hb
    have happ := append_isNodeAt b.arena
      (DTIRec.node ⟨b.cur_node, none, none, name, 0⟩) i h
    cases hc : b.cur_node with
    | none =>
      rw [hc] at hb
      have hb2 := hb
      simp only [POut.ok.injEq] at hb2
      rw [← hb2]
      simpa [hc] using happ
    | some parent =>
      rw [hc] at hb
      cases hp : b.prev_new_node with
      | none => rw [hp] at hb; exact absurd hb (by simp)
      | some prev =>
        rw [hp] at hb
        have hb2 := hb
        simp only [POut.ok.injEq] at hb2
        rw [← hb2]
        dsimp only
        rw [hc] at happ
        repeat' first
          | exact happ
          | apply updNodeAt_isNodeAt
          | split
  · rw [if_neg hcap] at hb
    exact absurd hb (by simp)

theorem parsed_prop_isNodeAt (b : DTIBuilder) (pb : List Nat) (no : Nat)
    (b2 : DTIBuilder) (hb : parsed_prop b pb no = .ok b2) (i : Nat)
    (h : IsNodeAt b.arena i) : IsNodeAt b2.arena i := by
  unfold parsed_prop at hb
  by_cases hh : b.in_node_header = false
  · rw [if_pos hh] at hb; exact absurd hb (by simp)
  · rw [if_neg hh] at hb
    by_cases hcap : b.front_off + propRecSize ≤ b.cap
    · rw [if_pos hcap] at hb
      cases hc : b.cur_node with
      | none => rw [hc] at hb; exact absurd hb (by simp)
      | some cur =>
        rw [hc] at hb
        have hb2 := hb
        simp only [POut.ok.injEq] at hb2
        rw [← hb2]
        exact append_isNodeAt _ _ i (updNodeAt_isNodeAt _ cur _ i h)
    · rw [if_neg hcap] at hb
      exact absurd hb (by simp)

theorem parsed_end_node_isNodeAt (b : DTIBuilder) (b2 : DTIBuilder)
    (hb : parsed_end_node b = .ok b2) (i : Nat)
    (h : IsNodeAt b.arena i) : IsNodeAt b2.arena i := by
  unfold parsed_end_node at hb
  cases hc : b.cur_node with
  | none => rw [hc] at hb; exact absurd hb (by simp)
  | some cur =>
    rw [hc] at hb
    dsimp only at hb
    cases hg : getNodeRec b.arena cur with
    | none => rw [hg] at hb; exact absurd hb (by simp)
    | some rec =>
      rw [hg] at hb
      have hb2 := hb
      simp only [POut.ok.injEq] at hb2
      rw [← hb2]
      exact h

theorem build_loop_isNodeAt (toks : List ParsedTok) :
    ∀ b b2, build_loop b toks = .ok b2 → ∀ i, IsNodeAt b.arena i →
      IsNodeAt b2.arena i := by
  induction toks with
  | nil =>
    intro b b2 h i hi
    unfold build_loop at h
    simp only [POut.ok.injEq] at h
    rw [← h]; exact hi
  | cons t rest ih =>
    intro b b2 h i hi
    cases t with
    | beginNode name =>
      unfold build_loop at h
      cases hp : parsed_node b name with
      | ok bm =>
        rw [hp] at h
        exact ih bm b2 h i (parsed_node_isNodeAt b name bm hp i hi)
      | err e => rw [hp] at h; exact absurd h (by simp)
      | panic => rw [hp] at h; exact absurd h (by simp)
    | prop pb no =>
      unfold build_loop at h
      cases hp : parsed_prop b pb no with
      | ok bm =>
        rw [hp] at h
        exact ih bm b2 h i (parsed_prop_isNodeAt b pb no bm hp i hi)
      | err e => rw [hp] at h; exact absurd h (by simp)
      | panic => rw [hp] at h; exact absurd h (by simp)
    | endNode =>
      unfold build_loop at h
      cases hp : parsed_end_node b with
      | ok bm =>
        rw [hp] at h
        exact ih bm b2 h i (parsed_end_node_isNodeAt b bm hp i hi)
      | err e => rw [hp] at h; exact absurd h (by simp)
      | panic => rw [hp] at h; exact absurd h (by simp)
    | nop =>
      unfold build_loop at h
      exact ih b b2 h i hi

/-- After a successful `init_builder`, the root is record 0 and it is a
node record. -/
theorem init_builder_loop_root (cap : Nat) :
    ∀ toks b2 rest, init_builder_loop (emptyBuilder cap) toks = .ok (b2, rest) →
      b2.cur_node = some 0 ∧ IsNodeAt b2.arena 0 := by
  intro toks
  induction toks with
  | nil => intro b2 rest h; exact absurd h (by simp [init_builder_loop])
  | cons t rest0 ih =>
    intro b2 rest h
    cases t with
    | nop =>
      unfold init_builder_loop at h
      exact ih b2 rest h
    | beginNode name =>
      unfold init_builder_loop at h
      cases hp : parsed_node (emptyBuilder cap) name with
      | ok bm =>
        rw [hp] at h
        have h2 := h
        simp only [POut.ok.injEq, Prod.mk.injEq] at h2
        obtain ⟨hb2, _⟩ := h2
        subst hb2
        unfold parsed_node emptyBuilder at hp
        by_cases hcap : 0 + nodeRecSize ≤ cap
        · rw [if_pos hcap] at hp
          simp only [POut.ok.injEq] at hp
          rw [← hp]
          exact ⟨rfl, ⟨_, rfl⟩⟩
        · rw [if_neg hcap] at hp
          exact absurd hp (by simp)
      | err e => rw [hp] at h; exact absurd h (by simp)
      | panic => rw [hp] at h; exact absurd h (by simp)
    | prop pb no => exact absurd h (by simp [init_builder_loop])
    | endNode => exact absurd h (by simp [init_builder_loop])

/-- Token of the structure stream that is a `Nop`. -/
def isNopTok : ParsedTok → Bool
  | .nop => true
  | _ => false

/-- The stream opens (after Nops) with a BeginNode. -/
def beginsWithNode (toks : List ParsedTok) : Bool :=
  match toks.dropWhile isNopTok with
  | .beginNode _ :: _ => true
  | _ => false

theorem init_builder_loop_no_begin (b : DTIBuilder) :
    ∀ toks, beginsWithNode toks = false →
      init_builder_loop b toks = .err .parseError := by
  intro toks
  induction toks with
  | nil => intro _; rfl
  | cons t rest ih =>
    intro h
    cases t with
    | nop =>
      unfold init_builder_loop
      apply ih
      simpa [beginsWithNode, List.dropWhile, isNopTok] using h
    | beginNode name => simp [beginsWithNode, List.dropWhile, isNopTok] at h
    | prop pb no => rfl
    | endNode => rfl

/-- C10: `DevTreeIndex::new` yields ParseError when no BeginNode precedes
the first Prop, EndNode, End token or end of stream, and on success the
root node record exists (it is the first arena record). -/
theorem c10_root_guarantee (cap : Nat) (toks : List ParsedTok) :
    (beginsWithNode toks = false → index_new cap toks = .err .parseError) ∧
      (∀ arena root, index_new cap toks = .ok (arena, root) →
        root = 0 ∧ ∃ rec, arena[root]? = some (DTIRec.node rec)) := by
  constructor
  · intro h
    unfold index_new init_builder
    rw [init_builder_loop_no_begin (emptyBuilder cap) toks h]
  · intro arena root h
    unfold index_new at h
    cases hi : init_builder cap toks with
    | err e => rw [hi] at h; exact absurd h (by simp)
    | panic => rw [hi] at h; exact absurd h (by simp)
    | ok pr =>
      obtain ⟨b, rest⟩ := pr
      rw [hi] at h
      dsimp only at h
      unfold init_builder at hi
      obtain ⟨hcur, hroot⟩ := init_builder_loop_root cap toks b rest hi
      rw [hcur] at h
      dsimp only at h
      cases hb : build_loop b rest with
      | err e => rw [hb] at h; exact absurd h (by simp)
      | panic => rw [hb] at h; exact absurd h (by simp)
      | ok b2 =>
        rw [hb] at h
        have h2 := h
        simp only [POut.ok.injEq, Prod.mk.injEq] at h2
        obtain ⟨harena, hroot0⟩ := h2
        subst harena
        refine ⟨hroot0.symm, ?_⟩
        rw [← hroot0]
        exact build_loop_isNodeAt rest b b2 hb 0 hroot

/-- C10 witness: a Prop-first stream is rejected; a well-formed stream
builds an index whose root record exists at index 0. -/
theorem c10_witness :
    index_new 96 [ParsedTok.prop [] 0] = .err .parseError ∧
      (index_new 96 [ParsedTok.beginNode [], ParsedTok.endNode] =
          .ok ([DTIRec.node ⟨none, none, none, [], 0⟩], 0) ∧
        (0 : Nat) = 0 ∧
        ∃ rec, ([DTIRec.node ⟨none, none, none, [], 0⟩] : List DTIRec)[(0 : Nat)]? =
          some (DTIRec.node rec)) := by
  refine ⟨?_, by decide, ?_⟩
  · exact (c10_root_guarantee 96 [ParsedTok.prop [] 0]).1 (by decide)
  · exact (c10_root_guarantee 96 [ParsedTok.beginNode [], ParsedTok.endNode]).2
      [DTIRec.node ⟨none, none, none, [], 0⟩] 0 (by decide)

/-- Structure block of a minimal tree `/ { a { } }`: the last node in
document order is the first child of its parent. -/
def c8toks : List ParsedTok :=
  [.beginNode [], .beginNode [97], .endNode, .endNode]

/-- The arena the builder produces for `c8toks`: the leaf record's `next`
pointer is its own index. -/
def c8arena : List DTIRec :=
  [DTIRec.node ⟨none, some 1, some 1, [], 0⟩,
   DTIRec.node ⟨some 0, none, some 1, [97], 0⟩]

/-- C8: building the index over `/ { a { } }` leaves node 1 (the leaf "a",
last in document order and a first child) with `next` pointing to itself;
`next_sibling` therefore returns the node itself although it has no later
sibling, against the claimed sibling recovery. -/
theorem c8_self_next_sibling :
    index_new 96 c8toks = .ok (c8arena, 0) ∧
      getNodeRec c8arena 1 = some ⟨some 0, none, some 1, [97], 0⟩ ∧
      next_sibling c8arena 1 = some 1 := by
  refine ⟨by decide, by decide, by decide⟩

/-- The same structure block, for the streaming/indexed comparison. -/
def c2toks : List ParsedTok :=
  [.beginNode [], .beginNode [97], .endNode, .endNode]

/-- C2: on `/ { a { } }` the streaming `nodes()` yields the two names and
stops, while the indexed iterator built from the same stream revisits the
leaf "a" on every further step (its `next_dfs` is itself) — the two name
sequences are not equal. -/
theorem c2_stream_index_names_diverge :
    s_nodes_fuel 10 c2toks (-1) none = .ok [[], [97]] ∧
      index_new 96 c2toks =
        .ok ([DTIRec.node ⟨none, some 1, some 1, [], 0⟩,
              DTIRec.node ⟨some 0, none, some 1, [97], 0⟩], 0) ∧
      idx_node_names
        [DTIRec.node ⟨none, some 1, some 1, [], 0⟩,
         DTIRec.node ⟨some 0, none, some 1, [97], 0⟩] 6 (idx_iter_new 0) =
        [[], [97], [97], [97], [97], [97]] := by
  refine ⟨by decide, by decide, by decide⟩

/-- C1 counterexample: the node's "compatible" value `"x\0s\0"` contains
the search string `"s"` in its NUL-separated list, so the claim expects the
streaming search to yield the node — but the streaming layer compares only
the property's first string (`"x"`) and yields nothing. -/
theorem c1_counterexample :
    ([115] ∈ nulSplit [120, 0, 115, 0]) ∧
      prop_name (compatBytes ++ [0]) 0 0 = .ok compatBytes ∧
      s_next_compatible (compatBytes ++ [0]) 0 [115]
        [.beginNode [114], .prop [120, 0, 115, 0] 0, .endNode] (-1) none =
        .ok none := by
  refine ⟨by decide, by decide, by decide⟩

/-- C1 (amended): the streaming `next_compatible_node` returns the owner of
the first later property named "compatible" whose FIRST NUL-terminated
string equals the search string (the specification-side scan), while the
indexed layer's matcher accepts a "compatible" value exactly when its full
NUL-separated string list contains the search string. -/
theorem c1_compat_semantics :
    (∀ (blob : List Nat) (offStrings : Nat) (s : List Nat)
        (toks : List ParsedTok) (d : Int) (par : Option (List Nat)),
        s_next_compatible blob offStrings s toks d par =
          compatSpecScan blob offStrings s false par toks) ∧
      (∀ propBuf s : List Nat, NulTerminated propBuf →
        idx_compat_match propBuf s = some (decide (s ∈ nulSplit propBuf))) :=
  ⟨fun blob o s toks d par => s_next_compatible_eq_scan blob o s toks d par,
    fun pb s h => idx_compat_match_eq pb s h⟩

/-- C1 witness: the amended theorem evaluated on the counterexample's
value buffer — the indexed matcher accepts the second list entry. -/
theorem c1_witness :
    NulTerminated [120, 0, 115, 0] ∧
      idx_compat_match [120, 0, 115, 0] [115] = some true := by
  refine ⟨by decide, ?_⟩
  have h := c1_compat_semantics.2 [120, 0, 115, 0] [115] (by decide)
  exact h.trans (by decide)

end FdtRs
